import Mathlib

/-!
Verification development for `emepy/geometries.py`.

The geometry core is shallowly embedded over the rationals `ℚ` (the source
computes with Python floats; the claims under study are about the exact
arithmetic structure of the code, so exact rational arithmetic is used).
Grid construction (`np.linspace`), Python slicing (`l[:-1:2]`, `l[1::2]`),
the per-cell rasterization loop of `DynamicRect2D.get_n`, the vertex
assembly, `set_design` / `set_layers` / `get_design`, the
`EMpyGeometryParameters` solver factories and the `WaveguideChannels`
index-profile construction are translated directly from the source.

The shapely area routines (`pixel_poly.intersects(polygon)` and
`pixel_poly.intersection(polygon).area`) are an external geometry library;
the rasterized shape in the source is always the disc
`Point(0, length / 2).buffer(width / 2)`, so the library is modelled as an
oracle (`ShapelyDisc`) giving, for a disc (center, radius) and an axis
aligned rectangle, the intersection test and the intersection area,
bundled with the two facts true of any area measure: the area is
nonnegative and is at most the area of the rectangle.
-/

/-- Embedding of `np.linspace a b n` with endpoint: `n` evenly spaced samples from `a`
to `b`.  For `n = 0` numpy returns an empty array and for `n = 1` the
single sample `a`. -/
def linspace (a b : ℚ) (n : ℕ) : List ℚ :=
  if n ≤ 1 then List.replicate n a
  else (List.range n).map (fun i : ℕ => a + (b - a) * (i : ℚ) / ((n : ℚ) - 1))

/-- The list of pairs of adjacent elements, `zip(l[:-1], l[1:])`. -/
def adjPairs {α : Type} : List α → List (α × α)
  | [] => []
  | [_] => []
  | a :: b :: t => (a, b) :: adjPairs (b :: t)

/-- Python extended slice `l[::2]`: every other element starting at
index 0. -/
def sliceStep2 {α : Type} : List α → List α
  | [] => []
  | [a] => [a]
  | a :: _ :: t => a :: sliceStep2 t

/-- Embedding of `[(x, z) for x, z in zip(l[:-1:2], l[1::2])]`: read a flat design
vector as a list of `(transverse, longitudinal)` coordinate pairs
(`geometries.py` lines 196 and 205-208). -/
def pairsFromFlat (l : List ℚ) : List (ℚ × ℚ) :=
  (sliceStep2 l.dropLast).zip (sliceStep2 (l.drop 1))

/-- Entry `m[j][i]` of a matrix stored as a list of rows, with default
`0` out of range. -/
def matGet (m : List (List ℚ)) (j i : ℕ) : ℚ :=
  (m.getD j []).getD i 0

/-- State stored by `EMpyGeometryParameters.__init__` (lines 32-61).  `core_index`,
`cladding_index`, `x` and `y` default to Python `None`, embedded as
`Option`. -/
structure EMpyGeometryParameters where
  wavelength : ℚ
  cladding_width : ℚ
  cladding_thickness : ℚ
  core_index : Option ℚ
  cladding_index : Option ℚ
  x : Option (List ℚ)
  y : Option (List ℚ)
  mesh : ℕ
  accuracy : ℚ
  boundary : String
  PML : Bool

/-- Modelled from the spec: the mode-solver constructor `MSEMpy` lives in
`emepy.fd`, which is not part of the sources under study; §6 of the spec
specifies mode-solver construction as an opaque handle built from the
passed configuration (`build(wavelength, width|None, thickness,
num_modes, ..., n=<index_map|None>) → opaque solver handle`), with
solving deferred.  It is embedded as a record of the passed
configuration. -/
structure MSEMpy where
  wavelength : ℚ
  width : Option ℚ
  thickness : Option ℚ
  num_modes : Option ℕ
  cladding_width : ℚ
  cladding_thickness : ℚ
  core_index : Option ℚ
  cladding_index : Option ℚ
  x : Option (List ℚ)
  y : Option (List ℚ)
  mesh : ℕ
  accuracy : ℚ
  boundary : String
  PML : Bool
  n : Option (List ℚ)

/-- Embedding of `EMpyGeometryParameters.get_solver_rect` (lines 63-83): constructs an
`MSEMpy` handle, passing every stored parameter through unchanged.  The
source contains no validation and no raise. -/
def EMpyGeometryParameters.get_solver_rect (p : EMpyGeometryParameters)
    (width thickness : ℚ) (num_modes : ℕ) : MSEMpy :=
  { wavelength := p.wavelength
    width := some width
    thickness := some thickness
    num_modes := some num_modes
    cladding_width := p.cladding_width
    cladding_thickness := p.cladding_thickness
    core_index := p.core_index
    cladding_index := p.cladding_index
    x := p.x
    y := p.y
    mesh := p.mesh
    accuracy := p.accuracy
    boundary := p.boundary
    PML := p.PML
    n := none }

/-- Embedding of `EMpyGeometryParameters.get_solver_index` (lines 85-106): constructs
an `MSEMpy` handle with `width=None` and the provided index profile `n`;
again no validation and no raise. -/
def EMpyGeometryParameters.get_solver_index (p : EMpyGeometryParameters)
    (thickness : Option ℚ) (num_modes : Option ℕ) (n : Option (List ℚ)) : MSEMpy :=
  { wavelength := p.wavelength
    width := none
    thickness := thickness
    num_modes := num_modes
    cladding_width := p.cladding_width
    cladding_thickness := p.cladding_thickness
    core_index := p.core_index
    cladding_index := p.cladding_index
    x := p.x
    y := p.y
    mesh := p.mesh
    accuracy := p.accuracy
    boundary := p.boundary
    PML := p.PML
    n := n }

/-- Oracle for the shapely geometry calls made by `get_n`: for the disc
with center `(cx, cz)` and radius `r` and the rectangle
`[xl, xu] × [zl, zu]`, `intersects` is `pixel_poly.intersects(polygon)`
and `area` is `pixel_poly.intersection(polygon).area`.  The two bundled
facts hold for any intersection area: it is nonnegative, and it is at
most the area of the (nondegenerate) rectangle. -/
structure ShapelyDisc where
  intersects : ℚ → ℚ → ℚ → ℚ → ℚ → ℚ → ℚ → Bool
  area : ℚ → ℚ → ℚ → ℚ → ℚ → ℚ → ℚ → ℚ
  area_nonneg : ∀ cx cz r xl xu zl zu, 0 ≤ area cx cz r xl xu zl zu
  area_le_cell : ∀ cx cz r xl xu zl zu, xl ≤ xu → zl ≤ zu →
    area cx cz r xl xu zl zu ≤ (xu - xl) * (zu - zl)

/-- The oracle describing an empty disc that meets nothing: a concrete
inhabitant of `ShapelyDisc` used to instantiate closed statements. -/
def trivialDisc : ShapelyDisc where
  intersects := fun _ _ _ _ _ _ _ => false
  area := fun _ _ _ _ _ _ _ => 0
  area_nonneg := fun _ _ _ _ _ _ _ => le_refl 0
  area_le_cell := fun _ _ _ _ _ _ _ hx hz =>
    mul_nonneg (sub_nonneg.mpr hx) (sub_nonneg.mpr hz)

/-- Embedding of `overlapping_area` for one pixel (lines 234-236): zero unless the
pixel polygon intersects the shape, in which case the intersection
area. -/
def cellOverlap (o : ShapelyDisc) (cx cz r xl xu zl zu : ℚ) : ℚ :=
  if o.intersects cx cz r xl xu zl zu then o.area cx cz r xl xu zl zu else 0

/-- The per-pixel effective index (lines 238-248): with subpixel
smoothing, `overlap / total * core + (1 - overlap / total) * clad`;
without, `core` when `overlapping_area` is truthy (nonzero) and `clad`
otherwise. -/
def cellValue (subpixel : Bool) (core clad overlap total : ℚ) : ℚ :=
  if subpixel then overlap / total * core + (1 - overlap / total) * clad
  else if overlap ≠ 0 then core else clad

/-- The mutable state of a `DynamicRect2D` instance: the fields assigned
in `__init__` (lines 134-179) that `get_n`, `set_design`, `set_layers`
and `get_design` read.  The material indices appear resolved to numbers
because `get_n` does arithmetic with them. -/
structure DynamicRect2D where
  core_index : ℚ
  cladding_index : ℚ
  symmetry : Bool
  subpixel : Bool
  width : ℚ
  length : ℚ
  grid_x : List ℚ
  grid_z : List ℚ
  static_vertices_left : List (ℚ × ℚ)
  static_vertices_right : List (ℚ × ℚ)
  design : List ℚ

/-- The source computes the initial top dynamic vertices (lines 152-158)
as `x = w/2 + sin(z / length * pi) * w/2` over
`z = linspace(0, length, num_params + 2)[1:-1]`.  The transcendental
`sin(z / length * pi)` is abstracted as the function `s` of `z`. -/
def initTopVertices (width length : ℚ) (num_params : ℕ) (s : ℚ → ℚ) : List (ℚ × ℚ) :=
  (((linspace 0 length (num_params + 2)).drop 1).dropLast).map
    (fun zi => (width / 2 + s zi * width / 2, zi))

/-- Initial bottom dynamic vertices (lines 165-168): constant
`x = -w/2` over the same interior `z` samples reversed. -/
def initBottomVertices (width length : ℚ) (num_params : ℕ) : List (ℚ × ℚ) :=
  ((((linspace 0 length (num_params + 2)).drop 1).dropLast).reverse).map
    (fun zi => (-(width / 2), zi))

/-- Embedding of `DynamicRect2D.__init__` (lines 118-179): stores the parameters,
derives `grid_x` from the cladding width and mesh count when `params.x`
is `None`, sets `grid_z = linspace(0, length, mesh_z)`, the static end
cap vertices, and the initial flattened design (top vertices only when
`symmetry`, top then bottom otherwise).  `s` abstracts
`z ↦ sin(z / length * pi)` used for the initial top vertices. -/
def mkDynamicRect2D (core_index cladding_index cladding_width : ℚ) (mesh : ℕ)
    (x : Option (List ℚ)) (width length : ℚ) (num_params : ℕ)
    (symmetry subpixel : Bool) (mesh_z : ℕ) (s : ℚ → ℚ) : DynamicRect2D :=
  let top := initTopVertices width length num_params s
  let bottom := initBottomVertices width length num_params
  { core_index := core_index
    cladding_index := cladding_index
    symmetry := symmetry
    subpixel := subpixel
    width := width
    length := length
    grid_x :=
      match x with
      | some xs => xs
      | none => linspace (-(cladding_width / 2)) (cladding_width / 2) mesh
    grid_z := linspace 0 length mesh_z
    static_vertices_left := [(-(width / 2), 0), (width / 2, 0)]
    static_vertices_right := [(width / 2, length), (-(width / 2), length)]
    design := ((if symmetry then top else top ++ bottom).map
      (fun p => [p.1, p.2])).flatten }

/-- The vertex loop assembled at the start of `get_n` (lines 188-208):
static left cap, top dynamic vertices read off the design, static right
cap, then the bottom vertices — mirrored reversed top when `symmetry`,
the second half of the design otherwise. -/
def DynamicRect2D.vertices (d : DynamicRect2D) : List (ℚ × ℚ) :=
  let top := if d.symmetry then d.design else d.design.take (d.design.length / 2)
  let bottom := if d.symmetry then d.design else d.design.drop (d.design.length / 2)
  d.static_vertices_left
    ++ pairsFromFlat top
    ++ d.static_vertices_right
    ++ (if d.symmetry then
          (pairsFromFlat bottom).reverse.map (fun p => (-p.1, p.2))
        else pairsFromFlat bottom)

/-- Embedding of `DynamicRect2D.get_n` (lines 186-250).  The assembled vertex loop is
computed and then discarded by the source: the `Polygon(vertices)` call
(line 211) is commented out and the rasterized shape is the disc
`Point(0, self.length / 2).buffer(self.width / 2)` (line 212).  Each
grid cell `[x_i, x_i+1] × [z_j, z_j+1]` receives the effective index
computed by `cellValue` from the overlap of the cell with that disc;
row `j` runs over longitudinal cells and column `i` over transverse
cells. -/
def DynamicRect2D.get_n (d : DynamicRect2D) (o : ShapelyDisc) : List (List ℚ) :=
  let _vertices := d.vertices
  (adjPairs d.grid_z).map fun zp =>
    (adjPairs d.grid_x).map fun xp =>
      cellValue d.subpixel d.core_index d.cladding_index
        (cellOverlap o 0 (d.length / 2) (d.width / 2) xp.1 xp.2 zp.1 zp.2)
        ((xp.2 - xp.1) * (zp.2 - zp.1))

/-- Embedding of `DynamicRect2D.set_layers` (lines 252-256): computes `get_n` and
returns it.  Despite its docstring ("Creates the layers needed for the
geometry") it constructs no `Layer` and assigns no `self.layers`. -/
def DynamicRect2D.set_layers (d : DynamicRect2D) (o : ShapelyDisc) : List (List ℚ) :=
  d.get_n o

/-- Embedding of `DynamicRect2D.set_design` (lines 181-184): stores the design
unconditionally (no validation of any kind) and returns
`self.set_layers()`.  The result is the updated instance paired with
the returned index map. -/
def DynamicRect2D.set_design (d : DynamicRect2D) (design : List ℚ)
    (o : ShapelyDisc) : DynamicRect2D × List (List ℚ) :=
  let d2 : DynamicRect2D := { d with design := design }
  (d2, d2.set_layers o)

/-- Embedding of `DynamicPolygon.get_design` (lines 112-114). -/
def DynamicRect2D.get_design (d : DynamicRect2D) : List ℚ :=
  d.design

/-- One `np.where((left_edge <= x) * (x <= right_edge), core, n)` step of
`WaveguideChannels.__init__` (lines 410-414), elementwise over the
transverse grid. -/
def channelStep (x : List ℚ) (core left_edge right_edge : ℚ) (n : List ℚ) : List ℚ :=
  (x.zip n).map (fun p =>
    if left_edge ≤ p.1 ∧ p.1 ≤ right_edge then core else p.2)

/-- The transverse index profile built by `WaveguideChannels.__init__`
(lines 402-414) when the transverse grid `x` is present: starting from
`np.ones(mesh) * cladding_index`, each non-excluded channel `out`
overrides the grid points inside
`[center - width/2, center + width/2]` with the core index, where
`center = -0.5 * (num_channels - 1) * (gap + width)
+ out * (gap + width)`. -/
def waveguideChannelsN (mesh : ℕ) (x : List ℚ) (core clad width gap : ℚ)
    (num_channels : ℕ) (exclude_indices : List ℕ) : List ℚ :=
  let starting_center := -(1 / 2) * ((num_channels : ℚ) - 1) * (gap + width)
  (List.range num_channels).foldl
    (fun n out =>
      if out ∈ exclude_indices then n
      else
        channelStep x core
          (starting_center + (out : ℚ) * (gap + width) - (1 / 2) * width)
          (starting_center + (out : ℚ) * (gap + width) + (1 / 2) * width) n)
    (List.replicate mesh clad)

/-- Embedding of `WaveguideChannels.__init__` with the transverse grid optional, as
the source receives it: when `params.x` is Python `None`, the first
non-excluded channel evaluates `left_edge <= params.x`, and comparing a
float with `None` raises `TypeError` in Python 3; when every channel is
excluded (or there are none) the loop body never compares and the all
cladding profile survives. -/
def waveguideChannelsNPy (mesh : ℕ) (x : Option (List ℚ)) (core clad width gap : ℚ)
    (num_channels : ℕ) (exclude_indices : List ℕ) : Except Unit (List ℚ) :=
  match x with
  | some xs =>
      Except.ok (waveguideChannelsN mesh xs core clad width gap num_channels exclude_indices)
  | none =>
      if (List.range num_channels).all (fun out => out ∈ exclude_indices) then
        Except.ok (List.replicate mesh clad)
      else Except.error ()

/-- The abstract sine stand-in used for concrete instances (its value is
irrelevant to every settled statement). -/
def sZero : ℚ → ℚ := fun _ => 0

/-- The end-to-end scenario instance:
`DynamicRect2D(EMpyGeometryParameters(mesh=50, core_index=3.4,
cladding_index=1.4), width=1e-6, length=2.5e-6, symmetry=True,
mesh_z=50, subpixel=True)` with the default `num_params=10` and default
cladding width `2.5e-6`. -/
def scenarioRect (s : ℚ → ℚ) : DynamicRect2D :=
  mkDynamicRect2D (17 / 5) (7 / 5) (1 / 400000) 50 none
    (1 / 1000000) (1 / 400000) 10 true true 50 s

/-- A small concrete instance for closed witnesses: core 2, cladding 1,
cladding width 4, mesh 3 (so `grid_x = [-2, 0, 2]`), width 2, length 4,
one design parameter, no symmetry, subpixel on, `mesh_z = 3` (so
`grid_z = [0, 2, 4]`). -/
def smallRect : DynamicRect2D :=
  mkDynamicRect2D 2 1 4 3 none 2 4 1 false true 3 sZero

/-- Concrete parameters with both material indices unset (`None`), the
remaining fields at the source defaults. -/
def p0 : EMpyGeometryParameters :=
  { wavelength := 31 / 20000000
    cladding_width := 1 / 400000
    cladding_thickness := 1 / 400000
    core_index := none
    cladding_index := none
    x := none
    y := none
    mesh := 128
    accuracy := 1 / 100000000
    boundary := "0000"
    PML := false }

/-- The `total_area` of the grid cell with transverse index `i` and
longitudinal index `j` (line 228). -/
def cellTotalArea (d : DynamicRect2D) (j i : ℕ) : ℚ :=
  (d.grid_x.getD (i + 1) 0 - d.grid_x.getD i 0) *
    (d.grid_z.getD (j + 1) 0 - d.grid_z.getD j 0)

/-- The `overlapping_area` of the grid cell `(j, i)` with the rasterized
shape (lines 234-236). -/
def cellOverlapAt (o : ShapelyDisc) (d : DynamicRect2D) (j i : ℕ) : ℚ :=
  cellOverlap o 0 (d.length / 2) (d.width / 2)
    (d.grid_x.getD i 0) (d.grid_x.getD (i + 1) 0)
    (d.grid_z.getD j 0) (d.grid_z.getD (j + 1) 0)

/-- The per-cell `fraction = intersection_area / cell_area` of the
rasterizer. -/
def fraction (o : ShapelyDisc) (d : DynamicRect2D) (j i : ℕ) : ℚ :=
  cellOverlapAt o d j i / cellTotalArea d j i

/-! ## Helper lemmas about the embedded operations -/

lemma linspace_length (a b : ℚ) (n : ℕ) : (linspace a b n).length = n := by
  unfold linspace
  split <;> simp

lemma linspace_getD (a b : ℚ) {n i : ℕ} (hn : 1 < n) (hi : i < n) :
    (linspace a b n).getD i 0 = a + (b - a) * (i : ℚ) / ((n : ℚ) - 1) := by
  unfold linspace
  rw [if_neg (by omega)]
  simp [List.getD_eq_getElem?_getD, List.getElem?_map, List.getElem?_range hi]

lemma linspace_getD_lt (a b : ℚ) {n i : ℕ} (hab : a < b) (hn : 1 < n)
    (hi : i + 1 < n) :
    (linspace a b n).getD i 0 < (linspace a b n).getD (i + 1) 0 := by
  rw [linspace_getD a b hn (show i < n by omega),
    linspace_getD a b hn (show i + 1 < n from hi)]
  have hden : (0 : ℚ) < (n : ℚ) - 1 := by
    have h2 : (2 : ℚ) ≤ (n : ℚ) := by exact_mod_cast hn
    linarith
  have hnum : (0 : ℚ) < b - a := by linarith
  have hcast : ((i + 1 : ℕ) : ℚ) = (i : ℚ) + 1 := by push_cast; ring
  rw [hcast]
  have hmul : (b - a) * (i : ℚ) < (b - a) * ((i : ℚ) + 1) := by nlinarith
  have hdiv := (div_lt_div_iff_of_pos_right hden).mpr hmul
  linarith

lemma adjPairs_length {α : Type} (l : List α) :
    (adjPairs l).length = l.length - 1 := by
  match l with
  | [] => rfl
  | [_] => rfl
  | a :: b :: t =>
      have ih := adjPairs_length (b :: t)
      simp [adjPairs, ih]

lemma adjPairs_getElem? {α : Type} (dflt : α) (l : List α) (i : ℕ)
    (hi : i + 1 < l.length) :
    (adjPairs l)[i]? = some (l.getD i dflt, l.getD (i + 1) dflt) := by
  match l, i with
  | a :: b :: t, 0 => simp [adjPairs, List.getD]
  | a :: b :: t, i + 1 =>
      have ih := adjPairs_getElem? dflt (b :: t) i (by simpa using hi)
      simpa [adjPairs] using ih

lemma adjPairs_getD {α : Type} (dflt : α) (l : List α) (i : ℕ)
    (hi : i + 1 < l.length) :
    (adjPairs l).getD i (dflt, dflt) = (l.getD i dflt, l.getD (i + 1) dflt) := by
  rw [List.getD_eq_getElem?_getD, adjPairs_getElem? dflt l i hi]
  rfl

lemma adjPairs_mem {α : Type} (dflt : α) {l : List α} {p : α × α}
    (hp : p ∈ adjPairs l) :
    ∃ i, i + 1 < l.length ∧ p.1 = l.getD i dflt ∧ p.2 = l.getD (i + 1) dflt := by
  match l with
  | [] => simp [adjPairs] at hp
  | [_] => simp [adjPairs] at hp
  | a :: b :: t =>
      rcases (by simpa [adjPairs] using hp : p = (a, b) ∨ p ∈ adjPairs (b :: t)) with
        h | h
      · exact ⟨0, by simp, by simp [h], by simp [h, List.getD]⟩
      · obtain ⟨i, hi, h1, h2⟩ := adjPairs_mem dflt h
        exact ⟨i + 1, by simpa using hi, by simpa [List.getD] using h1,
          by simpa [List.getD] using h2⟩

lemma cellOverlap_nonneg (o : ShapelyDisc) (cx cz r xl xu zl zu : ℚ) :
    0 ≤ cellOverlap o cx cz r xl xu zl zu := by
  unfold cellOverlap
  split
  · exact o.area_nonneg cx cz r xl xu zl zu
  · exact le_refl 0

lemma cellOverlap_le (o : ShapelyDisc) (cx cz r : ℚ) {xl xu zl zu : ℚ}
    (hx : xl ≤ xu) (hz : zl ≤ zu) :
    cellOverlap o cx cz r xl xu zl zu ≤ (xu - xl) * (zu - zl) := by
  unfold cellOverlap
  split
  · exact o.area_le_cell cx cz r xl xu zl zu hx hz
  · exact mul_nonneg (sub_nonneg.mpr hx) (sub_nonneg.mpr hz)

lemma cellValue_true_eq (core clad ov total : ℚ) :
    cellValue true core clad ov total = clad + ov / total * (core - clad) := by
  simp [cellValue]
  ring

lemma cellValue_false_eq {core clad ov total : ℚ} (htot : 0 < total) (h0 : 0 ≤ ov) :
    cellValue false core clad ov total = if 0 < ov / total then core else clad := by
  unfold cellValue
  by_cases h : ov = 0
  · subst h
    simp
  · have hpos : 0 < ov := lt_of_le_of_ne h0 (Ne.symm h)
    have hf : 0 < ov / total := div_pos hpos htot
    simp [h, hf]

lemma cellValue_true_bounds {core clad ov total : ℚ} (htot : 0 < total)
    (h0 : 0 ≤ ov) (h1 : ov ≤ total) (hcc : clad ≤ core) :
    clad ≤ cellValue true core clad ov total ∧
      cellValue true core clad ov total ≤ core := by
  rw [cellValue_true_eq]
  have hf0 : 0 ≤ ov / total := div_nonneg h0 (le_of_lt htot)
  have hf1 : ov / total ≤ 1 := (div_le_one htot).mpr h1
  constructor
  · nlinarith [mul_nonneg hf0 (sub_nonneg.mpr hcc)]
  · nlinarith [mul_nonneg (sub_nonneg.mpr hf1) (sub_nonneg.mpr hcc)]

lemma cellValue_strict_iff {core clad ov total : ℚ} (htot : 0 < total)
    (hcc : clad < core) :
    (clad < cellValue true core clad ov total ∧
        cellValue true core clad ov total < core)
      ↔ (0 < ov ∧ ov < total) := by
  rw [cellValue_true_eq]
  constructor
  · rintro ⟨hl, hu⟩
    have hf : 0 < ov / total := by nlinarith
    have hlt : ov / total < 1 := by nlinarith
    have hov : 0 < ov := by
      have hmul := mul_pos hf htot
      rwa [div_mul_cancel₀ _ (ne_of_gt htot)] at hmul
    exact ⟨hov, (div_lt_one htot).mp hlt⟩
  · rintro ⟨hovp, hovlt⟩
    have hf : 0 < ov / total := div_pos hovp htot
    have hlt : ov / total < 1 := (div_lt_one htot).mpr hovlt
    constructor
    · nlinarith [mul_pos hf (sub_pos.mpr hcc)]
    · nlinarith [mul_pos (sub_pos.mpr hlt) (sub_pos.mpr hcc)]

lemma getN_eq (d : DynamicRect2D) (o : ShapelyDisc) :
    d.get_n o = (adjPairs d.grid_z).map fun zp =>
      (adjPairs d.grid_x).map fun xp =>
        cellValue d.subpixel d.core_index d.cladding_index
          (cellOverlap o 0 (d.length / 2) (d.width / 2) xp.1 xp.2 zp.1 zp.2)
          ((xp.2 - xp.1) * (zp.2 - zp.1)) := rfl

lemma getN_length (d : DynamicRect2D) (o : ShapelyDisc) :
    (d.get_n o).length = d.grid_z.length - 1 := by
  rw [getN_eq]
  simp [adjPairs_length]

lemma getN_row_length {d : DynamicRect2D} {o : ShapelyDisc} {row : List ℚ}
    (hrow : row ∈ d.get_n o) : row.length = d.grid_x.length - 1 := by
  rw [getN_eq] at hrow
  obtain ⟨zp, _, rfl⟩ := List.mem_map.mp hrow
  simp [adjPairs_length]

lemma getN_entry (d : DynamicRect2D) (o : ShapelyDisc) {j i : ℕ}
    (hj : j + 1 < d.grid_z.length) (hi : i + 1 < d.grid_x.length) :
    matGet (d.get_n o) j i =
      cellValue d.subpixel d.core_index d.cladding_index
        (cellOverlap o 0 (d.length / 2) (d.width / 2)
          (d.grid_x.getD i 0) (d.grid_x.getD (i + 1) 0)
          (d.grid_z.getD j 0) (d.grid_z.getD (j + 1) 0))
        ((d.grid_x.getD (i + 1) 0 - d.grid_x.getD i 0) *
          (d.grid_z.getD (j + 1) 0 - d.grid_z.getD j 0)) := by
  have hrow : (d.get_n o).getD j [] =
      (adjPairs d.grid_x).map fun xp =>
        cellValue d.subpixel d.core_index d.cladding_index
          (cellOverlap o 0 (d.length / 2) (d.width / 2) xp.1 xp.2
            (d.grid_z.getD j 0) (d.grid_z.getD (j + 1) 0))
          ((xp.2 - xp.1) *
            (d.grid_z.getD (j + 1) 0 - d.grid_z.getD j 0)) := by
    rw [getN_eq, List.getD_eq_getElem?_getD, List.getElem?_map,
      adjPairs_getElem? (0 : ℚ) _ j hj]
    simp only [Option.map_some', Option.getD_some]
  unfold matGet
  rw [hrow, List.getD_eq_getElem?_getD, List.getElem?_map,
    adjPairs_getElem? (0 : ℚ) _ i hi]
  simp only [Option.map_some', Option.getD_some]

lemma getN_mem {d : DynamicRect2D} {o : ShapelyDisc} {row : List ℚ} {v : ℚ}
    (hrow : row ∈ d.get_n o) (hv : v ∈ row) :
    ∃ j i, j + 1 < d.grid_z.length ∧ i + 1 < d.grid_x.length ∧
      v = cellValue d.subpixel d.core_index d.cladding_index
        (cellOverlap o 0 (d.length / 2) (d.width / 2)
          (d.grid_x.getD i 0) (d.grid_x.getD (i + 1) 0)
          (d.grid_z.getD j 0) (d.grid_z.getD (j + 1) 0))
        ((d.grid_x.getD (i + 1) 0 - d.grid_x.getD i 0) *
          (d.grid_z.getD (j + 1) 0 - d.grid_z.getD j 0)) := by
  rw [getN_eq] at hrow
  obtain ⟨zp, hzp, rfl⟩ := List.mem_map.mp hrow
  obtain ⟨xp, hxp, rfl⟩ := List.mem_map.mp hv
  obtain ⟨j, hj, hz1, hz2⟩ := adjPairs_mem (0 : ℚ) hzp
  obtain ⟨i, hi, hx1, hx2⟩ := adjPairs_mem (0 : ℚ) hxp
  exact ⟨j, i, hj, hi, by rw [hz1, hz2, hx1, hx2]⟩

/-! ## Claim theorems -/

/-- C10: for a fixed `DynamicRect2D` instance the index map returned by
`set_design` (and by `get_n`) is identical for every design vector
passed: the rasterized shape is always the fixed disc centered at
`(0, length / 2)` with radius `width / 2`, so the output depends only on
the grids, the flags, the dimensions and the material indices, never on
the design vector's values. -/
theorem c10_design_independent (o : ShapelyDisc) (d : DynamicRect2D)
    (d1 d2 : List ℚ) :
    (d.set_design d1 o).2 = (d.set_design d2 o).2 ∧
      ∀ des : List ℚ,
        ({ d with design := des } : DynamicRect2D).get_n o = d.get_n o :=
  ⟨rfl, fun _ => rfl⟩

/-- C4 (supporting theorem for the code bug): `set_design(d)` stores the
design so that `get_design()` returns exactly `d`, re-rasterizes, and
returns the new index map — but the embedded state has no layer list to
rebuild because `set_layers` only computes and returns `get_n` and never
constructs a `Layer`; `DynamicRect2D.__init__` never calls the base
`Geometry` constructor either. -/
theorem c4_set_design_stores_and_rasterizes (o : ShapelyDisc)
    (d : DynamicRect2D) (des : List ℚ) :
    (d.set_design des o).1.design = des ∧
      (d.set_design des o).1.get_design = des ∧
      (d.set_design des o).2 =
        ({ d with design := des } : DynamicRect2D).get_n o :=
  ⟨rfl, rfl, rfl⟩

/-- C5 (counterexample): with both material indices unset (`None`), the
factory calls `get_solver_rect` / `get_solver_index` do construct and
return a solver handle — the unset indices are passed straight through —
rather than raising anything; no `ConfigurationError` exists in the
source. -/
theorem c5_factory_constructs_with_unset_indices :
    p0.core_index = none ∧ p0.cladding_index = none ∧
      (p0.get_solver_rect (1 / 2000000) (11 / 50000000) 1).core_index = none ∧
      (p0.get_solver_rect (1 / 2000000) (11 / 50000000) 1).cladding_index = none ∧
      (p0.get_solver_index none none none).core_index = none ∧
      (p0.get_solver_index none none none).cladding_index = none :=
  ⟨rfl, rfl, rfl, rfl, rfl, rfl⟩

/-- C5 (amended): the solver-construction factories perform no
validation at all: for every parameter record they construct a solver
handle and pass `core_index` / `cladding_index` through unchanged,
unset (`None`) values included. -/
theorem c5_no_validation_in_factories (p : EMpyGeometryParameters)
    (w t : ℚ) (nm : ℕ) (t2 : Option ℚ) (nm2 : Option ℕ)
    (nmap : Option (List ℚ)) :
    (p.get_solver_rect w t nm).core_index = p.core_index ∧
      (p.get_solver_rect w t nm).cladding_index = p.cladding_index ∧
      (p.get_solver_index t2 nm2 nmap).core_index = p.core_index ∧
      (p.get_solver_index t2 nm2 nmap).cladding_index = p.cladding_index :=
  ⟨rfl, rfl, rfl, rfl⟩

/-- C1 (supporting theorem for the code bug): the vertex-assembled
polygon is discarded by `get_n`.  For a concrete instance, two designs
that assemble different vertex loops produce identical index maps under
every area oracle, because the rasterized shape is the fixed disc of
line 212, not the assembled polygon. -/
theorem c1_polygon_discarded :
    (∀ o : ShapelyDisc,
        (smallRect.set_design [0, 1, 2, 3] o).2 =
          (smallRect.set_design [9, 1, 2, 3] o).2) ∧
      ({ smallRect with design := [0, 1, 2, 3] } : DynamicRect2D).vertices ≠
        ({ smallRect with design := [9, 1, 2, 3] } : DynamicRect2D).vertices := by
  refine ⟨fun _ => rfl, ?_⟩
  intro h
  have h2 := congrArg (fun l => l.getD 2 ((0 : ℚ), (0 : ℚ))) h
  simp [DynamicRect2D.vertices, smallRect, mkDynamicRect2D, pairsFromFlat,
    sliceStep2] at h2

/-- C6 (counterexample): `set_design` accepts the odd-length design
vector `[0]` without any error: the design is stored as-is and an index
map is computed and returned. -/
theorem c6_set_design_accepts_odd_design :
    [(0 : ℚ)].length % 2 = 1 ∧
      (smallRect.set_design [0] trivialDisc).1.design = [0] ∧
      (smallRect.set_design [0] trivialDisc).2 = [[1, 1], [1, 1]] := by
  refine ⟨rfl, rfl, ?_⟩
  norm_num [smallRect, mkDynamicRect2D, DynamicRect2D.set_design,
    DynamicRect2D.set_layers, getN_eq, linspace, List.range_succ, adjPairs,
    cellValue, cellOverlap, trivialDisc]

/-- C6 (amended): `set_design` performs no validation whatsoever: every
design vector — malformed ones of odd length or of the wrong element
count for the declared symmetry included — is stored verbatim and
rasterization proceeds, returning the index map. -/
theorem c6_no_design_validation (o : ShapelyDisc) (d : DynamicRect2D)
    (des : List ℚ) :
    (d.set_design des o).1.design = des ∧
      (d.set_design des o).2 =
        ({ d with design := des } : DynamicRect2D).get_n o :=
  ⟨rfl, rfl⟩

/-- C2: for every grid cell of `get_n`, with
`fraction = intersection_area / cell_area`, the fraction lies in
`[0, 1]`, is `0` when the rasterized shape does not intersect the cell,
and the cell's value is `fraction * core + (1 - fraction) * clad` when
the subpixel flag is set and `core` when `fraction > 0` (else `clad`)
when it is not. -/
theorem c2_cell_formula (o : ShapelyDisc) (d : DynamicRect2D) (j i : ℕ)
    (hj : j + 1 < d.grid_z.length) (hi : i + 1 < d.grid_x.length)
    (hxlt : d.grid_x.getD i 0 < d.grid_x.getD (i + 1) 0)
    (hzlt : d.grid_z.getD j 0 < d.grid_z.getD (j + 1) 0) :
    0 ≤ fraction o d j i ∧ fraction o d j i ≤ 1 ∧
      (o.intersects 0 (d.length / 2) (d.width / 2)
          (d.grid_x.getD i 0) (d.grid_x.getD (i + 1) 0)
          (d.grid_z.getD j 0) (d.grid_z.getD (j + 1) 0) = false →
        fraction o d j i = 0) ∧
      matGet (d.get_n o) j i =
        (if d.subpixel then
            fraction o d j i * d.core_index +
              (1 - fraction o d j i) * d.cladding_index
          else if 0 < fraction o d j i then d.core_index
          else d.cladding_index) := by
  have htot : 0 < cellTotalArea d j i :=
    mul_pos (sub_pos.mpr hxlt) (sub_pos.mpr hzlt)
  have hov0 : 0 ≤ cellOverlapAt o d j i :=
    cellOverlap_nonneg o 0 (d.length / 2) (d.width / 2)
      (d.grid_x.getD i 0) (d.grid_x.getD (i + 1) 0)
      (d.grid_z.getD j 0) (d.grid_z.getD (j + 1) 0)
  have hovle : cellOverlapAt o d j i ≤ cellTotalArea d j i :=
    cellOverlap_le o 0 (d.length / 2) (d.width / 2) hxlt.le hzlt.le
  refine ⟨div_nonneg hov0 htot.le, (div_le_one htot).mpr hovle, ?_, ?_⟩
  · intro hfalse
    unfold fraction cellOverlapAt cellOverlap
    rw [hfalse]
    simp
  · rw [getN_entry d o hj hi]
    rcases Bool.eq_false_or_eq_true d.subpixel with hs | hs
    · simp only [hs, eq_self_iff_true, if_true]
      show cellValue true d.core_index d.cladding_index
          (cellOverlapAt o d j i) (cellTotalArea d j i) = _
      rw [cellValue_true_eq]
      unfold fraction cellOverlapAt cellTotalArea
      ring
    · simp only [hs, Bool.false_eq_true, if_false]
      show cellValue false d.core_index d.cladding_index
          (cellOverlapAt o d j i) (cellTotalArea d j i) = _
      rw [cellValue_false_eq htot hov0]
      rfl

/-- Witness for `c2_cell_formula`: the concrete instance `smallRect`
with the empty-disc oracle at cell `(0, 0)` satisfies the hypotheses,
and the cell value evaluates to the cladding index `1`. -/
theorem c2_cell_formula_witness :
    (0 + 1 < smallRect.grid_z.length ∧ 0 + 1 < smallRect.grid_x.length ∧
        smallRect.grid_x.getD 0 0 < smallRect.grid_x.getD (0 + 1) 0 ∧
        smallRect.grid_z.getD 0 0 < smallRect.grid_z.getD (0 + 1) 0) ∧
      matGet (smallRect.get_n trivialDisc) 0 0 = 1 := by
  have hj : 0 + 1 < smallRect.grid_z.length := by
    norm_num [smallRect, mkDynamicRect2D, linspace_length]
  have hi : 0 + 1 < smallRect.grid_x.length := by
    norm_num [smallRect, mkDynamicRect2D, linspace_length]
  have hx : smallRect.grid_x.getD 0 0 < smallRect.grid_x.getD (0 + 1) 0 := by
    norm_num [smallRect, mkDynamicRect2D, linspace, List.range_succ]
  have hz : smallRect.grid_z.getD 0 0 < smallRect.grid_z.getD (0 + 1) 0 := by
    norm_num [smallRect, mkDynamicRect2D, linspace, List.range_succ]
  have h := c2_cell_formula trivialDisc smallRect 0 0 hj hi hx hz
  refine ⟨⟨hj, hi, hx, hz⟩, ?_⟩
  rw [h.2.2.2]
  norm_num [smallRect, mkDynamicRect2D, fraction, cellOverlapAt, cellOverlap,
    trivialDisc]

/-- Membership helper for the symmetric vertex loop: in
`static-left ++ P ++ static-right ++ mirrored-reversed-P` the mirror
image of every member is again a member. -/
lemma mirror_mem {w L : ℚ} {P : List (ℚ × ℚ)} {v : ℚ × ℚ}
    (hv : v ∈ [(-(w / 2), (0 : ℚ)), (w / 2, 0)] ++ P
        ++ [(w / 2, L), (-(w / 2), L)]
        ++ P.reverse.map (fun p => (-p.1, p.2))) :
    (-v.1, v.2) ∈ [(-(w / 2), (0 : ℚ)), (w / 2, 0)] ++ P
        ++ [(w / 2, L), (-(w / 2), L)]
        ++ P.reverse.map (fun p => (-p.1, p.2)) := by
  rw [List.mem_append] at hv
  rcases hv with hv | hbot
  · rw [List.mem_append] at hv
    rcases hv with hv | hsr
    · rw [List.mem_append] at hv
      rcases hv with hsl | hP
      · rcases List.mem_pair.mp hsl with rfl | rfl
        · simp
        · simp
      · refine List.mem_append_right _ ?_
        rw [List.mem_map]
        exact ⟨v, List.mem_reverse.mpr hP, rfl⟩
    · rcases List.mem_pair.mp hsr with rfl | rfl
      · simp
      · simp
  · rw [List.mem_map] at hbot
    obtain ⟨u, hu, rfl⟩ := hbot
    have hu2 : u ∈ P := List.mem_reverse.mp hu
    have he : ((-(-u.1), u.2) : ℚ × ℚ) = u := by simp
    rw [he]
    exact List.mem_append_left _
      (List.mem_append_left _ (List.mem_append_right _ hu2))

/-- C7: for every `DynamicRect2D` constructed with `symmetry = True` and
every stored design vector, the assembled vertex loop is exactly mirror
symmetric about the longitudinal axis: for every vertex `(x, z)` of the
loop, `(-x, z)` is also a vertex of the loop (the bottom vertices being
the negated-transverse reversal of the top ones, and the static caps
pairing with each other). -/
theorem c7_mirror_symmetric_vertices (core clad cw : ℚ) (mesh : ℕ)
    (xopt : Option (List ℚ)) (width length : ℚ) (num_params : ℕ)
    (subpixel : Bool) (mesh_z : ℕ) (s : ℚ → ℚ) (o : ShapelyDisc)
    (des : List ℚ) (v : ℚ × ℚ)
    (hv : v ∈ (((mkDynamicRect2D core clad cw mesh xopt width length
        num_params true subpixel mesh_z s).set_design des o).1).vertices) :
    (-v.1, v.2) ∈ (((mkDynamicRect2D core clad cw mesh xopt width length
        num_params true subpixel mesh_z s).set_design des o).1).vertices := by
  have hd : (((mkDynamicRect2D core clad cw mesh xopt width length
      num_params true subpixel mesh_z s).set_design des o).1).vertices =
      [(-(width / 2), (0 : ℚ)), (width / 2, 0)] ++ pairsFromFlat des
        ++ [(width / 2, length), (-(width / 2), length)]
        ++ (pairsFromFlat des).reverse.map (fun p => (-p.1, p.2)) := rfl
  rw [hd] at hv ⊢
  exact mirror_mem hv

/-- Witness for `c7_mirror_symmetric_vertices`: in a concrete symmetric
instance with design `[1, 2]`, the static vertex `(1, 0)` is in the loop
and so is its mirror image `(-1, 0)`. -/
theorem c7_mirror_symmetric_vertices_witness :
    (((1 : ℚ), (0 : ℚ)) ∈
        (((mkDynamicRect2D 2 1 4 3 none 2 4 1 true true 3
            sZero).set_design [1, 2] trivialDisc).1).vertices) ∧
      ((-(((1 : ℚ), (0 : ℚ)).1), ((1 : ℚ), (0 : ℚ)).2) ∈
        (((mkDynamicRect2D 2 1 4 3 none 2 4 1 true true 3
            sZero).set_design [1, 2] trivialDisc).1).vertices) := by
  have hmem : ((1 : ℚ), (0 : ℚ)) ∈
      (((mkDynamicRect2D 2 1 4 3 none 2 4 1 true true 3
          sZero).set_design [1, 2] trivialDisc).1).vertices := by
    norm_num [DynamicRect2D.vertices, mkDynamicRect2D, DynamicRect2D.set_design,
      pairsFromFlat, sliceStep2]
  exact ⟨hmem,
    c7_mirror_symmetric_vertices 2 1 4 3 none 2 4 1 true 3 sZero trivialDisc
      [1, 2] ((1 : ℚ), (0 : ℚ)) hmem⟩


/-- Value of `getD` through one `np.where` channel override step. -/
lemma channelStep_getD {x n : List ℚ} {core lo ro : ℚ} {k : ℕ}
    (hk : k < x.length) (hkn : k < n.length) :
    (channelStep x core lo ro n).getD k 0 =
      if lo ≤ x.getD k 0 ∧ x.getD k 0 ≤ ro then core else n.getD k 0 := by
  have hx : x[k]? = some (x.getD k 0) := by
    rw [List.getElem?_eq_getElem hk, List.getD_eq_getElem?_getD,
      List.getElem?_eq_getElem hk]
    rfl
  have hn2 : n[k]? = some (n.getD k 0) := by
    rw [List.getElem?_eq_getElem hkn, List.getD_eq_getElem?_getD,
      List.getElem?_eq_getElem hkn]
    rfl
  have hzip : (x.zip n)[k]? = some (x.getD k 0, n.getD k 0) :=
    List.getElem?_zip_eq_some.mpr ⟨hx, hn2⟩
  unfold channelStep
  rw [List.getD_eq_getElem?_getD, List.getElem?_map, hzip]
  rfl

/-- The map `getD` commutes with the channel-accumulation fold: the per-point
value is the fold of per-point overrides. -/
lemma foldl_channelStep_getD (x : List ℚ) (core : ℚ) (lo ro : ℕ → ℚ)
    (excl : List ℕ) (outs : List ℕ) (n : List ℚ) (k : ℕ)
    (hk : k < x.length) (hn : n.length = x.length) :
    ((outs.foldl (fun m out => if out ∈ excl then m
        else channelStep x core (lo out) (ro out) m) n).getD k 0)
      = outs.foldl (fun v out => if out ∈ excl then v
          else if lo out ≤ x.getD k 0 ∧ x.getD k 0 ≤ ro out then core else v)
          (n.getD k 0) := by
  induction outs generalizing n with
  | nil => rfl
  | cons out outs ih =>
      simp only [List.foldl_cons]
      by_cases hmem : out ∈ excl
      · rw [if_pos hmem, if_pos hmem]
        exact ih n hn
      · rw [if_neg hmem, if_neg hmem]
        have hlen2 : (channelStep x core (lo out) (ro out) n).length = x.length := by
          simp [channelStep, hn]
        rw [ih _ hlen2, channelStep_getD hk (by rw [hn]; exact hk)]

/-- Pointwise characterization of the `WaveguideChannels` index profile:
the value at grid point `k` is the fold over channels of interval
overrides of the cladding index. -/
lemma waveguideChannelsN_getD (mesh : ℕ) (x : List ℚ) (core clad width gap : ℚ)
    (numc : ℕ) (excl : List ℕ) (k : ℕ) (hk : k < x.length)
    (hlen : x.length = mesh) :
    (waveguideChannelsN mesh x core clad width gap numc excl).getD k 0 =
      (List.range numc).foldl (fun v out => if out ∈ excl then v
        else if -(1 / 2) * ((numc : ℚ) - 1) * (gap + width)
              + (out : ℚ) * (gap + width) - 1 / 2 * width ≤ x.getD k 0 ∧
            x.getD k 0 ≤ -(1 / 2) * ((numc : ℚ) - 1) * (gap + width)
              + (out : ℚ) * (gap + width) + 1 / 2 * width
          then core else v) clad := by
  have hrepl : (List.replicate mesh clad).length = x.length := by simp [hlen]
  have hstart : (List.replicate mesh clad).getD k 0 = clad := by
    rw [List.getD_eq_getElem?_getD, List.getElem?_replicate,
      if_pos (by omega : k < mesh)]
    rfl
  simp only [waveguideChannelsN]
  rw [foldl_channelStep_getD x core
    (fun out : ℕ => -(1 / 2) * ((numc : ℚ) - 1) * (gap + width)
      + (out : ℚ) * (gap + width) - 1 / 2 * width)
    (fun out : ℕ => -(1 / 2) * ((numc : ℚ) - 1) * (gap + width)
      + (out : ℚ) * (gap + width) + 1 / 2 * width)
    excl (List.range numc) (List.replicate mesh clad) k hk hrepl, hstart]

/-- C8: for `WaveguideChannels` with `num_channels = 3` and
`exclude_indices = [1]`, a grid point inside channel 1's interval gets
the cladding index and a grid point inside channel 0's or channel 2's
interval gets the core index, where channel `k` occupies
`[center_k - width/2, center_k + width/2]` with
`center_k = -0.5 * (num_channels - 1) * (gap + width) + k * (gap + width)`. -/
theorem c8_channel_exclusion (x : List ℚ) (mesh : ℕ) (core clad width gap : ℚ)
    (hw : 0 < width) (hg : 0 < gap) (hlen : x.length = mesh) (k : ℕ)
    (hk : k < mesh) :
    ((-(1 / 2) * ((3 : ℚ) - 1) * (gap + width) + 1 * (gap + width) - width / 2
          ≤ x.getD k 0 ∧
        x.getD k 0 ≤ -(1 / 2) * ((3 : ℚ) - 1) * (gap + width)
          + 1 * (gap + width) + width / 2) →
      (waveguideChannelsN mesh x core clad width gap 3 [1]).getD k 0 = clad) ∧
      ((-(1 / 2) * ((3 : ℚ) - 1) * (gap + width) + 0 * (gap + width) - width / 2
            ≤ x.getD k 0 ∧
          x.getD k 0 ≤ -(1 / 2) * ((3 : ℚ) - 1) * (gap + width)
            + 0 * (gap + width) + width / 2) →
        (waveguideChannelsN mesh x core clad width gap 3 [1]).getD k 0 = core) ∧
      ((-(1 / 2) * ((3 : ℚ) - 1) * (gap + width) + 2 * (gap + width) - width / 2
            ≤ x.getD k 0 ∧
          x.getD k 0 ≤ -(1 / 2) * ((3 : ℚ) - 1) * (gap + width)
            + 2 * (gap + width) + width / 2) →
        (waveguideChannelsN mesh x core clad width gap 3 [1]).getD k 0 = core) := by
  have hkx : k < x.length := by omega
  have hval := waveguideChannelsN_getD mesh x core clad width gap 3 [1] k hkx hlen
  have hr3 : List.range 3 = [0, 1, 2] := rfl
  rw [hr3] at hval
  simp only [List.foldl_cons, List.foldl_nil] at hval
  rw [if_neg (show (0 : ℕ) ∉ [1] by simp),
    if_pos (show (1 : ℕ) ∈ [1] by simp),
    if_neg (show (2 : ℕ) ∉ [1] by simp)] at hval
  push_cast at hval
  refine ⟨?_, ?_, ?_⟩
  · rintro ⟨h1, h2⟩
    rw [hval]
    split_ifs with ha hb
    · exfalso
      obtain ⟨ha1, ha2⟩ := ha
      linarith
    · exfalso
      obtain ⟨hb1, hb2⟩ := hb
      linarith
    · rfl
  · rintro ⟨h1, h2⟩
    rw [hval]
    split_ifs with ha hb
    · rfl
    · rfl
    · exfalso
      rw [not_and_or] at hb
      rcases hb with hb | hb
      · push_neg at hb
        linarith
      · push_neg at hb
        linarith
  · rintro ⟨h1, h2⟩
    rw [hval]
    split_ifs with ha hb
    · rfl
    · exfalso
      rw [not_and_or] at ha
      rcases ha with ha | ha
      · push_neg at ha
        linarith
      · push_neg at ha
        linarith
    · exfalso
      rw [not_and_or] at ha
      rcases ha with ha | ha
      · push_neg at ha
        linarith
      · push_neg at ha
        linarith

/-- Witness for `c8_channel_exclusion`: `width = 2`, `gap = 1`,
`x = [-3, 0, 3]` puts the three sample points at the three channel
centers; the middle one gets the cladding index. -/
theorem c8_witness :
    ((0 : ℚ) < 2 ∧ (0 : ℚ) < 1 ∧ ([(-3 : ℚ), 0, 3].length = 3) ∧ 1 < 3) ∧
      (waveguideChannelsN 3 [(-3 : ℚ), 0, 3] 5 1 2 1 3 [1]).getD 1 0 = 1 := by
  have h := c8_channel_exclusion [(-3 : ℚ), 0, 3] 3 5 1 2 1 (by norm_num)
    (by norm_num) (by simp) 1 (by norm_num)
  refine ⟨⟨by norm_num, by norm_num, by simp, by norm_num⟩, ?_⟩
  exact h.1 ⟨by norm_num [List.getD_cons_succ, List.getD_cons_zero],
    by norm_num [List.getD_cons_succ, List.getD_cons_zero]⟩

/-- C9 (counterexample): constructing the `WaveguideChannels` index
profile with the transverse grid absent fails with the embedded
`TypeError` (comparing a float with `None`), instead of succeeding with
a derived grid. -/
theorem c9_waveguidechannels_fails_without_x :
    waveguideChannelsNPy 128 none (17 / 5) (7 / 5) (1 / 2000000)
      (1 / 10000000) 2 [] = Except.error () := rfl

/-- C9 (amended): `DynamicRect2D` does derive its transverse grid from
the cladding width and mesh count when `x` is absent, but
`WaveguideChannels` performs no such derivation: with `x` absent and at
least one non-excluded channel its index-profile construction fails. -/
theorem c9_x_derivation (core clad cw : ℚ) (mesh : ℕ) (w L : ℚ)
    (num_params : ℕ) (symmetry subpixel : Bool) (mesh_z : ℕ) (s : ℚ → ℚ)
    (mesh2 : ℕ) (core2 clad2 w2 g2 : ℚ) (numc : ℕ) (excl : List ℕ)
    (hch : ∃ out, out < numc ∧ out ∉ excl) :
    (mkDynamicRect2D core clad cw mesh none w L num_params symmetry subpixel
        mesh_z s).grid_x = linspace (-(cw / 2)) (cw / 2) mesh ∧
      waveguideChannelsNPy mesh2 none core2 clad2 w2 g2 numc excl =
        Except.error () := by
  refine ⟨rfl, ?_⟩
  have hall : (List.range numc).all (fun out => out ∈ excl) = false := by
    obtain ⟨out, hlt, hnot⟩ := hch
    rw [List.all_eq_false]
    exact ⟨out, List.mem_range.mpr hlt, by simpa using hnot⟩
  show (if (List.range numc).all (fun out => out ∈ excl) = true then
      Except.ok (List.replicate mesh2 clad2) else Except.error ()) =
    Except.error ()
  rw [hall]
  simp

/-- Witness for `c9_x_derivation` at a concrete instance with two
channels and nothing excluded. -/
theorem c9_x_derivation_witness :
    (∃ out, out < 2 ∧ out ∉ ([] : List ℕ)) ∧
      ((mkDynamicRect2D 2 1 4 3 none 2 4 1 false true 3 sZero).grid_x =
          linspace (-(4 / 2)) (4 / 2) 3 ∧
        waveguideChannelsNPy 3 none 2 1 2 1 2 [] = Except.error ()) :=
  ⟨⟨0, by simp⟩,
    c9_x_derivation 2 1 4 3 2 4 1 false true 3 sZero 3 2 1 2 1 2 []
      ⟨0, by simp⟩⟩


/-- C3: `get_n` returns an array of shape `(K - 1, M - 1)` indexed
`[longitudinal-cell, transverse-cell]`; for the end-to-end scenario
(`mesh = 50`, `core_index = 3.4`, `cladding_index = 1.4`,
`width = 1e-6`, `length = 2.5e-6`, `symmetry = True`, `mesh_z = 50`,
`subpixel = True`) the returned array is `49 x 49`, every value lies in
`[1.4, 3.4]`, and a value is strictly between the two bounds exactly
when the cell straddles the rasterized shape's boundary (its overlap
with the shape is strictly between zero and the full cell area). -/
theorem c3_shape_and_scenario (o : ShapelyDisc) (s : ℚ → ℚ) (j i : ℕ)
    (hj : j + 1 < (scenarioRect s).grid_z.length)
    (hi : i + 1 < (scenarioRect s).grid_x.length) :
    (∀ (d : DynamicRect2D) (o2 : ShapelyDisc),
        (d.get_n o2).length = d.grid_z.length - 1 ∧
          ∀ row ∈ d.get_n o2, row.length = d.grid_x.length - 1) ∧
      ((scenarioRect s).get_n o).length = 49 ∧
      (∀ row ∈ (scenarioRect s).get_n o, row.length = 49) ∧
      (∀ row ∈ (scenarioRect s).get_n o, ∀ v ∈ row,
        7 / 5 ≤ v ∧ v ≤ 17 / 5) ∧
      ((7 / 5 < matGet ((scenarioRect s).get_n o) j i ∧
          matGet ((scenarioRect s).get_n o) j i < 17 / 5) ↔
        (0 < cellOverlapAt o (scenarioRect s) j i ∧
          cellOverlapAt o (scenarioRect s) j i <
            cellTotalArea (scenarioRect s) j i)) := by
  have hlz : (scenarioRect s).grid_z.length = 50 := by
    rw [show (scenarioRect s).grid_z = linspace 0 (1 / 400000) 50 from rfl,
      linspace_length]
  have hlx : (scenarioRect s).grid_x.length = 50 := by
    rw [show (scenarioRect s).grid_x =
      linspace (-(1 / 400000 / 2)) (1 / 400000 / 2) 50 from rfl, linspace_length]
  have hxmono : ∀ i2 : ℕ, i2 + 1 < 50 →
      (scenarioRect s).grid_x.getD i2 0 <
        (scenarioRect s).grid_x.getD (i2 + 1) 0 := by
    intro i2 h2
    rw [show (scenarioRect s).grid_x =
      linspace (-(1 / 400000 / 2)) (1 / 400000 / 2) 50 from rfl]
    exact linspace_getD_lt _ _ (by norm_num) (by norm_num) h2
  have hzmono : ∀ j2 : ℕ, j2 + 1 < 50 →
      (scenarioRect s).grid_z.getD j2 0 <
        (scenarioRect s).grid_z.getD (j2 + 1) 0 := by
    intro j2 h2
    rw [show (scenarioRect s).grid_z = linspace 0 (1 / 400000) 50 from rfl]
    exact linspace_getD_lt _ _ (by norm_num) (by norm_num) h2
  refine ⟨fun d o2 => ⟨getN_length d o2, fun row hrow => getN_row_length hrow⟩,
    ?_, ?_, ?_, ?_⟩
  · rw [getN_length, hlz]
  · intro row hrow
    rw [getN_row_length hrow, hlx]
  · intro row hrow v hv
    obtain ⟨j2, i2, hj2, hi2, hveq⟩ := getN_mem hrow hv
    have hj2' : j2 + 1 < 50 := by rw [hlz] at hj2; exact hj2
    have hi2' : i2 + 1 < 50 := by rw [hlx] at hi2; exact hi2
    have hxlt := hxmono i2 hi2'
    have hzlt := hzmono j2 hj2'
    have htot : 0 < ((scenarioRect s).grid_x.getD (i2 + 1) 0 -
        (scenarioRect s).grid_x.getD i2 0) *
        ((scenarioRect s).grid_z.getD (j2 + 1) 0 -
          (scenarioRect s).grid_z.getD j2 0) :=
      mul_pos (sub_pos.mpr hxlt) (sub_pos.mpr hzlt)
    have hov0 : 0 ≤ cellOverlap o 0 ((scenarioRect s).length / 2)
        ((scenarioRect s).width / 2)
        ((scenarioRect s).grid_x.getD i2 0) ((scenarioRect s).grid_x.getD (i2 + 1) 0)
        ((scenarioRect s).grid_z.getD j2 0)
        ((scenarioRect s).grid_z.getD (j2 + 1) 0) :=
      cellOverlap_nonneg o _ _ _ _ _ _ _
    have hovle := cellOverlap_le o 0 ((scenarioRect s).length / 2)
      ((scenarioRect s).width / 2) hxlt.le hzlt.le
    rw [hveq, show (scenarioRect s).subpixel = true from rfl,
      show (scenarioRect s).core_index = 17 / 5 from rfl,
      show (scenarioRect s).cladding_index = 7 / 5 from rfl]
    exact cellValue_true_bounds htot hov0 hovle (by norm_num)
  · have hj' : j + 1 < 50 := by rw [hlz] at hj; exact hj
    have hi' : i + 1 < 50 := by rw [hlx] at hi; exact hi
    have hxlt := hxmono i hi'
    have hzlt := hzmono j hj'
    have htot : 0 < cellTotalArea (scenarioRect s) j i :=
      mul_pos (sub_pos.mpr hxlt) (sub_pos.mpr hzlt)
    rw [getN_entry (scenarioRect s) o hj hi,
      show (scenarioRect s).subpixel = true from rfl,
      show (scenarioRect s).core_index = 17 / 5 from rfl,
      show (scenarioRect s).cladding_index = 7 / 5 from rfl]
    show (7 / 5 < cellValue true (17 / 5) (7 / 5)
        (cellOverlapAt o (scenarioRect s) j i)
        (cellTotalArea (scenarioRect s) j i) ∧
      cellValue true (17 / 5) (7 / 5) (cellOverlapAt o (scenarioRect s) j i)
        (cellTotalArea (scenarioRect s) j i) < 17 / 5) ↔ _
    exact cellValue_strict_iff htot (by norm_num)

/-- Witness for `c3_shape_and_scenario` at cell `(0, 0)` with the
empty-disc oracle. -/
theorem c3_witness :
    (0 + 1 < (scenarioRect sZero).grid_z.length ∧
        0 + 1 < (scenarioRect sZero).grid_x.length) ∧
      ((scenarioRect sZero).get_n trivialDisc).length = 49 := by
  have hj : 0 + 1 < (scenarioRect sZero).grid_z.length := by
    rw [show (scenarioRect sZero).grid_z = linspace 0 (1 / 400000) 50 from rfl,
      linspace_length]
    norm_num
  have hi : 0 + 1 < (scenarioRect sZero).grid_x.length := by
    rw [show (scenarioRect sZero).grid_x =
      linspace (-(1 / 400000 / 2)) (1 / 400000 / 2) 50 from rfl, linspace_length]
    norm_num
  exact ⟨⟨hj, hi⟩, (c3_shape_and_scenario trivialDisc sZero 0 0 hj hi).2.1⟩
